import Mathlib

/-!
# Verification of the serial streaming driver (`src/ogcode/ogcSerialDriver.py`)

This file gives a shallow embedding of the serial streaming protocol driver:
the `ogcSerialWriter` / `ogcSerialReader` worker threads and the
`ogcSerialDriver` facade.  The program text is modelled as a `List Char`
of bytes (the program is G-code, i.e. ASCII, so one character is one
UTF-8 byte and `len(line.encode("utf-8")) = len(line)`).

The two worker threads are embedded as a small-step interleaving
transition system over a shared session state `Sess`.  Every access of
the shared fields (`data`, `index`, `outstanding`, `ready`, `done`) in
the Python code happens inside a `with self.lock:` region; each such
lock region is one atomic step of the transition system.  Thread-local
pure computation (`strip`, the classification tests) is folded into the
step that follows the lock region that produced its input.  The check
`while not self.done` at the top of each worker loop is its own program
point (`mainLoop` / `mainR`), with the locked loop body a separate
program point (`wbody` / `rbody`), so the race in which `stop()` sets a
done flag between the loop test and the body is represented.

The driver facade methods (`write`, `stop`, `close`, `error`,
`clear_errors`, `progress`) are embedded as pure functions on a
`Driver` record.  Wall-clock timestamps are passed in as opaque string
arguments (`now`), mirroring `datetime.now().strftime(...)`.

Python's `float(response)` test (used by the reader to skip 5-byte
temperature telemetry lines) is kept abstract: every definition that
needs it is parametrised by an oracle `pf : List Char → Bool` deciding
whether CPython's `float()` accepts the byte string.  No claim below
depends on the concrete float grammar.
-/

/-- Single-quote character (ASCII 39), used by the modelled Python
`bytes` repr. -/
def squote : Char := Char.ofNat 39

/-- Modelled Python repr of a `bytes` object, as interpolated by
`f"Laser error: {response}"` (escaping of exotic bytes is not modelled;
no claim depends on it). -/
def pyBytesRepr (r : List Char) : String :=
  "b" ++ String.singleton squote ++ String.mk r ++ String.singleton squote

/-- Timestamped log entry `f"[{timestamp}] - {msg}"` as produced by
`ogcSerialDriver.message` and `ogcSerialDriver.error`. -/
def fmtEntry (t m : String) : String := "[" ++ t ++ "] - " ++ m

/-- Python `bytes.strip()` whitespace set. -/
def isPyWs (c : Char) : Bool :=
  c == ' ' || c == '\t' || c == '\n' || c == '\r' || c == Char.ofNat 11 || c == Char.ofNat 12

/-- Python `bytes.strip()`: drop ASCII whitespace from both ends. -/
def pyStrip (l : List Char) : List Char :=
  ((l.dropWhile isPyWs).reverse.dropWhile isPyWs).reverse

/-- The bytes `b"ok"`. -/
def okBytes : List Char := ['o', 'k']

/-- The bytes `b"Processing Mcode"` skipped by the reader. -/
def mcodeBytes : List Char := "Processing Mcode".toList

/-- The bytes `b"code"` skipped by the reader. -/
def codeBytes : List Char := "code".toList

/-- Result of the reader's classification of one stripped, non-empty
response line (`ogcSerialReader.run`, lines 125-148). -/
inductive RClass
  | ack
  | skipd
  | fault
deriving DecidableEq

/-- Classification of a stripped non-empty response line, translated
from the if-chain in `ogcSerialReader.run`:
`response == b'ok'` → decrement; `startswith(b'Processing Mcode')`,
`startswith(b'code')`, or 5 bytes accepted by `float()` → skip;
anything else → error.  `pf` is the `float()` oracle. -/
def classify (pf : List Char → Bool) (r : List Char) : RClass :=
  if r = okBytes then .ack
  else if mcodeBytes.isPrefixOf r then .skipd
  else if codeBytes.isPrefixOf r then .skipd
  else if r.length = 5 ∧ pf r = true then .skipd
  else .fault

/-- The line the writer sends from a data suffix:
`data[index:].split("\n", 1)[0] + "\n"`
(`split("\n",1)[0]` is the prefix before the first newline, i.e.
`takeWhile (· ≠ '\n')`). -/
def nlLine (d : List Char) : List Char :=
  d.takeWhile (fun c => c ≠ '\n') ++ ['\n']

/-- The sequence of wire lines the writer produces from a program:
repeatedly take the prefix before the first newline, re-append a single
`'\n'` terminator, and continue past the consumed bytes. -/
def linesOf : List Char → List (List Char)
  | [] => []
  | c :: cs =>
    nlLine (c :: cs) :: linesOf ((c :: cs).drop (nlLine (c :: cs)).length)
termination_by d => d.length
decreasing_by
  simp only [nlLine, List.length_drop, List.length_append, List.length_cons]
  omega

/-- Total byte count of a list of wire lines. -/
def sumLens (ls : List (List Char)) : Nat := (ls.map List.length).sum

/-- The byte offset at which the writer's cursor rests after sending the
whole program: `len(P)` when `P` is empty or ends with a newline, else
`len(P) + 1` (the final line gets a synthesized `'\n'` terminator). -/
def paddedLen (d : List Char) : Nat :=
  if d = [] then 0
  else if d.getLast? = some '\n' then d.length
  else d.length + 1

/-- Program counter of the writer thread (`ogcSerialWriter.run`):
`waitReady` = the wait-for-reader poll loop; `mainLoop` = the
`while not self.done` test; `wbody` = the locked loop body;
`finishW` = the final "Writing completed." message; `haltedW` = thread
exited. -/
inductive WPC
  | waitReady
  | mainLoop
  | wbody
  | finishW
  | haltedW
deriving DecidableEq

/-- Program counter of the reader thread (`ogcSerialReader.run`):
`flushR` = the initial flush-and-set-ready lock region; `mainR` = the
`while not self.done` test; `rbody` = the locked read region;
`classifyR r` = about to classify the stripped non-empty response `r`;
`finishR` = the final messages; `haltedR` = thread exited. -/
inductive RPC
  | flushR
  | mainR
  | rbody
  | classifyR (r : List Char)
  | finishR
  | haltedR
deriving DecidableEq

/-- Shared session state of one streaming session: the driver fields
(`data`, `max_outstanding`, `outstanding`), the writer fields (`index`,
writer `done`), the reader fields (reader `done`, `ready`), the two
thread program counters, and the observable traces: `sent` (payloads of
the writer's `serial.write` calls, in order), `inbox` (response lines
awaiting `serial.readline`), and the two logs.  `flushed` is a ghost
flag recording that the reader performed `serial.reset_input_buffer()`;
`stopped` is a ghost flag recording that `stop()` was invoked. -/
structure Sess where
  data : Option (List Char)
  maxOut : Nat
  outstanding : Int
  index : Nat
  ready : Bool
  flushed : Bool
  writerDone : Bool
  readerDone : Bool
  stopped : Bool
  wpc : WPC
  rpc : RPC
  sent : List (List Char)
  inbox : List (List Char)
  errors : List String
  messages : List String
deriving DecidableEq

/-- One step of the writer thread (`ogcSerialWriter.run`), atomic per
lock region.  The Python `if line:` test is always true because the
line always ends with the appended `'\n'`. -/
def wstep (now : String) (s : Sess) : Sess :=
  match s.wpc with
  | .waitReady =>
    if s.writerDone || s.ready then { s with wpc := .mainLoop } else s
  | .mainLoop =>
    if s.writerDone then { s with wpc := .finishW } else { s with wpc := .wbody }
  | .wbody =>
    match s.data with
    | none => { s with wpc := .mainLoop }
    | some d =>
      if d.length ≤ s.index then { s with writerDone := true, wpc := .mainLoop }
      else if s.outstanding < (s.maxOut : Int) then
        { s with sent := s.sent ++ [nlLine (d.drop s.index)],
                 index := s.index + (nlLine (d.drop s.index)).length,
                 outstanding := s.outstanding + 1,
                 wpc := .mainLoop }
      else { s with wpc := .mainLoop }
  | .finishW =>
    { s with messages := s.messages ++ [fmtEntry now "Writing completed."],
             wpc := .haltedW }
  | .haltedW => s

/-- One step of the reader thread (`ogcSerialReader.run`), atomic per
lock region.  `now` is the current timestamp and `els` the formatted
elapsed time used by the final "Engrave time" message.  `serial.readline`
with the configured zero timeout pops the next available line of the
inbox or returns empty. -/
def rstep (pf : List Char → Bool) (now els : String) (s : Sess) : Sess :=
  match s.rpc with
  | .flushR =>
    if s.readerDone then { s with ready := true, rpc := .mainR }
    else { s with inbox := [], flushed := true, ready := true, rpc := .mainR }
  | .mainR =>
    if s.readerDone then { s with rpc := .finishR } else { s with rpc := .rbody }
  | .rbody =>
    match s.data with
    | none => { s with rpc := .mainR }
    | some _ =>
      if s.outstanding ≠ 0 then
        match s.inbox with
        | [] => { s with rpc := .mainR }
        | r :: rest =>
          if pyStrip r = [] then { s with inbox := rest, rpc := .mainR }
          else { s with inbox := rest, rpc := .classifyR (pyStrip r) }
      else if s.writerDone then { s with readerDone := true, rpc := .mainR }
      else { s with rpc := .mainR }
  | .classifyR r =>
    match classify pf r with
    | .ack => { s with outstanding := s.outstanding - 1, rpc := .mainR }
    | .skipd => { s with rpc := .mainR }
    | .fault =>
      { s with errors := s.errors ++ [fmtEntry now ("Laser error: " ++ pyBytesRepr r)],
               messages := s.messages ++ [fmtEntry now ("Laser error: " ++ pyBytesRepr r)],
               rpc := .mainR }
  | .finishR =>
    { s with messages := s.messages ++
               [fmtEntry now "Reading completed.",
                fmtEntry now ("Engrave time: " ++ els)],
             rpc := .haltedR }
  | .haltedR => s

/-- Interleaving labels: a writer step, a reader step, the environment
(controller) delivering a response line into the serial input buffer,
`stop()` setting the writer's done flag, or `stop()` setting the
reader's done flag (which the Python code reaches only after joining the
writer thread). -/
inductive SLabel
  | wr (now : String)
  | rd (now els : String)
  | env (r : List Char)
  | stopW
  | stopR

/-- Apply one labelled step to the session state. -/
def sstep (pf : List Char → Bool) (s : Sess) : SLabel → Sess
  | .wr now => wstep now s
  | .rd now els => rstep pf now els s
  | .env r => { s with inbox := s.inbox ++ [r] }
  | .stopW => { s with writerDone := true, stopped := true }
  | .stopR =>
    if s.wpc = .haltedW then { s with readerDone := true, stopped := true } else s

/-- Run a schedule of steps. -/
def runS (pf : List Char → Bool) : List SLabel → Sess → Sess
  | [], s => s
  | l :: ls, s => runS pf ls (sstep pf s l)

/-- Reachability: some interleaving of writer, reader, environment and
cancellation steps leads from `s0` to `s`. -/
def Reach (pf : List Char → Bool) (s0 s : Sess) : Prop :=
  ∃ ls : List SLabel, s = runS pf ls s0

/-- The session state installed by `ogcSerialDriver.write` just after
both threads are started: program `P`, window `M`, `outstanding = 0`,
cursor 0, both threads at their entry points, nothing sent yet.  The
serial input buffer and the logs are arbitrary. -/
def ValidInit (P : List Char) (M : Nat) (s : Sess) : Prop :=
  s.data = some P ∧ s.maxOut = M ∧ s.outstanding = 0 ∧ s.index = 0 ∧
  s.ready = false ∧ s.flushed = false ∧ s.writerDone = false ∧
  s.readerDone = false ∧ s.stopped = false ∧ s.wpc = .waitReady ∧
  s.rpc = .flushR ∧ s.sent = []

instance (P : List Char) (M : Nat) (s : Sess) : Decidable (ValidInit P M s) := by
  unfold ValidInit
  infer_instance

/-- Session-level view of the `ogcSerialDriver.progress` property.
During a session the writer thread exists, so `not self.writer` is
false; `not self.data` is true when `data` is `None` or the empty
string.  Otherwise `100 * self.writer.index / len(self.data)` with
Python true division, i.e. a rational. -/
def progress (s : Sess) : ℚ :=
  match s.data with
  | none => 0
  | some d => if d.length = 0 then 0 else (100 * s.index : ℚ) / (d.length : ℚ)

/-- State of an `ogcSerialWriter` thread object as seen by the driver. -/
structure WriterTh where
  index : Nat
  done : Bool
deriving DecidableEq

/-- State of an `ogcSerialReader` thread object as seen by the driver. -/
structure ReaderTh where
  done : Bool
  ready : Bool
deriving DecidableEq

/-- State of an `ogcSerialDriver` object: the two logs, the window
configuration, the shared counters, the installed program, the two
(optional) worker thread objects, whether the serial port is open,
the payloads directly written to the port by the driver itself
(`stop()`'s safety sequence), and whether `write_start_time` has been
assigned. -/
structure Driver where
  errors : List String
  messages : List String
  maxOutstanding : Nat
  outstanding : Int
  data : Option (List Char)
  writer : Option WriterTh
  reader : Option ReaderTh
  serialIsOpen : Bool
  portWrites : List String
  writeStartSet : Bool
deriving DecidableEq

namespace ogcSerialDriver

/-- `ogcSerialDriver.message`: append one timestamped entry to the
message log. -/
def message (now msg : String) (d : Driver) : Driver :=
  { d with messages := d.messages ++ [fmtEntry now msg] }

/-- `ogcSerialDriver.error`: append one timestamped entry to both the
error log and the message log. -/
def error (now err : String) (d : Driver) : Driver :=
  { d with errors := d.errors ++ [fmtEntry now err],
           messages := d.messages ++ [fmtEntry now err] }

/-- `ogcSerialDriver.clear_messages`. -/
def clear_messages (d : Driver) : Driver := { d with messages := [] }

/-- `ogcSerialDriver.clear_errors`: reset the error log only. -/
def clear_errors (d : Driver) : Driver := { d with errors := [] }

/-- The session-active test in `ogcSerialDriver.write`:
`self.writer and not self.writer.done or self.reader and not self.reader.done`. -/
def sessionActive (d : Driver) : Bool :=
  (match d.writer with
   | some w => !w.done
   | none => false) ||
  (match d.reader with
   | some r => !r.done
   | none => false)

/-- `data.count("\n")`. -/
def countNl (p : List Char) : Nat := p.count '\n'

/-- The `f"Writing {len(data)} bytes with {lines} lines to laser."`
message text. -/
def writingMsg (p : List Char) : String :=
  "Writing " ++ toString p.length ++ " bytes with " ++
    toString (countNl p + 1) ++ " lines to laser."

/-- `ogcSerialDriver.write`: return immediately when the error log is
non-empty; otherwise record the start time and the "Writing ..."
message, then reject with an "I/O already in progress." error when a
session is still active, else install the program, reset `outstanding`,
and start fresh writer and reader threads. -/
def write (now : String) (p : List Char) (d : Driver) : Driver :=
  if d.errors ≠ [] then d
  else
    let d1 := message now (writingMsg p) { d with writeStartSet := true }
    if sessionActive d1 then error now "I/O already in progress." d1
    else { d1 with data := some p, outstanding := 0,
                   writer := some { index := 0, done := false },
                   reader := some { done := false, ready := false } }

/-- The fixed safety payload `"\nM5\nM2"` (laser off, end program) that
`stop()` writes directly on the port. -/
def safetySeq : String := "\nM5\nM2"

/-- `ogcSerialDriver.stop`: stop and discard both worker threads, clear
the installed program, and, whenever the port is open, write the safety
sequence directly on the port (between buffer resets and a flush, which
are not port writes); finally log "Serial port stopped.".  The worker
threads' own cancellation behaviour is the session transition system's
`stopW`/`stopR` steps; this function gives the driver-visible state
change, which for a quiescent driver (workers absent or done) is exact. -/
def stop (now : String) (d : Driver) : Driver :=
  let d1 : Driver := { d with writer := none, reader := none, data := none }
  let d2 : Driver :=
    if d1.serialIsOpen then { d1 with portWrites := d1.portWrites ++ [safetySeq] }
    else d1
  message now "Serial port stopped." d2

/-- `ogcSerialDriver.close`: `stop()`, then close the port if it is
open, then log "Serial port closed.". -/
def close (now : String) (d : Driver) : Driver :=
  let d1 := stop now d
  let d2 : Driver :=
    if d1.serialIsOpen then { d1 with serialIsOpen := false } else d1
  message now "Serial port closed." d2

/-- `ogcSerialDriver.progress` on the driver record. -/
def dprogress (d : Driver) : ℚ :=
  match d.writer, d.data with
  | none, _ => 0
  | some _, none => 0
  | some w, some p =>
    if p.length = 0 then 0 else (100 * w.index : ℚ) / (p.length : ℚ)

end ogcSerialDriver

/-- Reader program points that can coexist with a naturally-set reader
done flag (after the reader sets its own done flag it only proceeds to
the final messages). -/
def rpcTailB : RPC → Bool
  | .mainR => true
  | .finishR => true
  | .haltedR => true
  | _ => false

/-- Inductive invariant of the session transition system for a session
started on program `P` with window `M`. -/
structure InvS (P : List Char) (M : Nat) (s : Sess) : Prop where
  data_eq : s.data = some P
  max_eq : s.maxOut = M
  out_lb : 0 ≤ s.outstanding
  out_ub : s.outstanding ≤ (M : Int)
  cls_pos : ∀ r, s.rpc = .classifyR r → 1 ≤ s.outstanding
  past_wait : s.wpc ≠ .waitReady → s.ready = true ∨ s.writerDone = true
  wbody_ready : s.wpc = .wbody → s.ready = true
  ready_fl : s.ready = true → s.flushed = true ∨ s.readerDone = true
  rdone_wdone : s.readerDone = true → s.writerDone = true
  wpc_done : s.wpc = .finishW ∨ s.wpc = .haltedW → s.writerDone = true
  rdone_nofl : s.readerDone = true → s.flushed = true ∨ s.wpc = .haltedW
  rpc_fl : s.rpc ≠ .flushR → s.flushed = true ∨ s.readerDone = true
  sent_ready : s.sent ≠ [] → s.ready = true ∧ s.flushed = true
  sent_prefix : s.sent = (linesOf P).take s.sent.length
  index_sum : s.index = sumLens s.sent
  wdone_ix : s.writerDone = true → s.stopped = true ∨ P.length ≤ s.index
  rdone_quiet : s.readerDone = true →
    s.stopped = true ∨ (s.outstanding = 0 ∧ rpcTailB s.rpc = true)

/-- A trivial instance of the `float()` oracle, for concrete runs in
which the oracle is never consulted. -/
def pfFalse : List Char → Bool := fun _ => false

/-- Concrete two-byte program `"G1"` (no trailing newline). -/
def cP : List Char := ['G', '1']

/-- Concrete initial session state for `cP` with window 2. -/
def cInit : Sess :=
  { data := some cP, maxOut := 2, outstanding := 0, index := 0,
    ready := false, flushed := false, writerDone := false,
    readerDone := false, stopped := false, wpc := .waitReady,
    rpc := .flushR, sent := [], inbox := [], errors := [], messages := [] }

/-- A fault-free schedule for `cInit`: the reader flushes, the writer
sends the single line and finishes, the controller replies `"ok\n"`,
the reader acknowledges it and finishes.  No `stop()` occurs. -/
def cSched : List SLabel :=
  [.rd "t" "e", .wr "t", .wr "t", .wr "t", .wr "t", .wr "t", .wr "t", .wr "t",
   .env ['o', 'k', '\n'],
   .rd "t" "e", .rd "t" "e", .rd "t" "e", .rd "t" "e", .rd "t" "e", .rd "t" "e", .rd "t" "e"]

/-- The session state at the end of the fault-free schedule. -/
def cFin : Sess := runS pfFalse cSched cInit

/-- A driver whose error log is non-empty (e.g. after a failed
`serial.open`), no session ever started. -/
def cxErrDriver : Driver :=
  { errors := ["[t0] - boom"], messages := ["[t0] - boom"], maxOutstanding := 128,
    outstanding := 0, data := none, writer := none, reader := none,
    serialIsOpen := true, portWrites := [], writeStartSet := false }

/-- A driver with an active session (both workers running) and an empty
error log. -/
def cxActiveDriver : Driver :=
  { errors := [], messages := [], maxOutstanding := 128,
    outstanding := 1, data := some ['G', '1'],
    writer := some { index := 0, done := false },
    reader := some { done := false, ready := true },
    serialIsOpen := true, portWrites := [], writeStartSet := true }

/-- A quiescent driver with the port open and no workers. -/
def cxOpenDriver : Driver :=
  { errors := [], messages := [], maxOutstanding := 128,
    outstanding := 0, data := none, writer := none, reader := none,
    serialIsOpen := true, portWrites := [], writeStartSet := false }

/-- A session state with the writer in its locked loop body and an
empty line (leading `'\n'`) at the cursor. -/
def c10State : Sess :=
  { data := some ['\n', 'G'], maxOut := 2, outstanding := 0, index := 0,
    ready := true, flushed := true, writerDone := false,
    readerDone := false, stopped := false, wpc := .wbody,
    rpc := .mainR, sent := [], inbox := [], errors := [], messages := [] }

/-- A session state with the reader about to classify the stripped
response `b"ok"`. -/
def c5State : Sess :=
  { data := some ['G', '1'], maxOut := 2, outstanding := 1, index := 3,
    ready := true, flushed := true, writerDone := false,
    readerDone := false, stopped := false, wpc := .mainLoop,
    rpc := .classifyR ['o', 'k'], sent := [['G', '1', '\n']], inbox := [],
    errors := [], messages := [] }

/-- The prefix of the fault-free schedule that leaves the writer inside
its locked loop body, about to send the first line. -/
def cMidSched : List SLabel := [.rd "t" "e", .wr "t", .wr "t"]

/-- The session state reached by `cMidSched` from `cInit`. -/
def cMid : Sess := runS pfFalse cMidSched cInit

theorem sumLens_nil : sumLens [] = 0 := rfl

theorem sumLens_cons (a : List Char) (l : List (List Char)) :
    sumLens (a :: l) = a.length + sumLens l := by
  simp [sumLens]

theorem sumLens_append (l₁ l₂ : List (List Char)) :
    sumLens (l₁ ++ l₂) = sumLens l₁ + sumLens l₂ := by
  simp [sumLens]

theorem nlLine_length (d : List Char) :
    (nlLine d).length = (d.takeWhile (fun c => c ≠ '\n')).length + 1 := by
  simp [nlLine]

theorem linesOf_eq_nil : linesOf [] = [] := by
  simp [linesOf]

theorem linesOf_ne_nil_eq (d : List Char) (h : d ≠ []) :
    linesOf d = nlLine d :: linesOf (d.drop (nlLine d).length) := by
  obtain ⟨c, cs, rfl⟩ := List.exists_cons_of_ne_nil h
  rw [linesOf]

theorem linesOf_eq_nil_iff (d : List Char) : linesOf d = [] ↔ d = [] := by
  constructor
  · intro h
    by_contra hne
    rw [linesOf_ne_nil_eq d hne] at h
    exact List.cons_ne_nil _ _ h
  · intro h
    subst h
    exact linesOf_eq_nil

theorem takeWhile_stop {α : Type} (p : α → Bool) :
    ∀ d : List α, (d.takeWhile p).length < d.length →
      ∃ x, d[(d.takeWhile p).length]? = some x ∧ p x = false := by
  intro d
  induction d with
  | nil => intro h; simp at h
  | cons c cs ih =>
    intro h
    by_cases hp : p c = true
    · rw [List.takeWhile_cons_of_pos hp] at h ⊢
      simp only [List.length_cons, List.getElem?_cons_succ]
      exact ih (by simpa using h)
    · rw [List.takeWhile_cons_of_neg hp] at h ⊢
      refine ⟨c, by simp, ?_⟩
      simpa using hp

theorem takeWhile_all {α : Type} (p : α → Bool) (d : List α)
    (h : (d.takeWhile p).length = d.length) : ∀ x ∈ d, p x = true := by
  intro x hx
  have heq : d.takeWhile p = d := (List.takeWhile_prefix p).eq_of_length h
  exact List.mem_takeWhile_imp (heq ▸ hx)

theorem sumLens_linesOf_aux :
    ∀ (n : Nat) (d : List Char), d.length ≤ n →
      sumLens (linesOf d) = paddedLen d := by
  intro n
  induction n with
  | zero =>
    intro d hd
    have : d = [] := List.eq_nil_of_length_eq_zero (Nat.le_zero.mp hd)
    subst this
    simp [linesOf_eq_nil, sumLens_nil, paddedLen]
  | succ n ih =>
    intro d hd
    rcases eq_or_ne d [] with rfl | hne
    · simp [linesOf_eq_nil, sumLens_nil, paddedLen]
    · rw [linesOf_ne_nil_eq d hne, sumLens_cons, nlLine_length]
      set t := (d.takeWhile (fun c => c ≠ '\n')).length with ht
      have htle : t ≤ d.length := (List.takeWhile_prefix _).length_le
      have hdl : 0 < d.length := List.length_pos.mpr hne
      rcases eq_or_lt_of_le htle with heq | hlt
      · -- no newline in d: the synthesized terminator overshoots by one
        have hall : ∀ x ∈ d, x ≠ '\n' := by
          intro x hx
          simpa using takeWhile_all (fun c => c ≠ '\n') d (by omega) x hx
        have hdrop : d.drop (t + 1) = [] := List.drop_eq_nil_of_le (by omega)
        rw [hdrop, linesOf_eq_nil, sumLens_nil]
        have hgl : ¬ d.getLast? = some '\n' := by
          rw [List.getLast?_eq_getLast d hne]
          simp only [Option.some.injEq]
          exact hall _ (List.getLast_mem hne)
        rw [paddedLen, if_neg hne, if_neg hgl]
        omega
      · -- the byte right after the takeWhile prefix is a newline
        obtain ⟨x, hx1, hx2⟩ := takeWhile_stop (fun c => c ≠ '\n') d (by omega)
        have hxnl : x = '\n' := by simpa using hx2
        subst hxnl
        rw [← ht] at hx1
        rcases eq_or_lt_of_le (Nat.succ_le_of_lt hlt) with heq1 | hlt1
        · -- the newline is the last byte of d
          have hdrop : d.drop (t + 1) = [] := List.drop_eq_nil_of_le (by omega)
          rw [hdrop, linesOf_eq_nil, sumLens_nil]
          have hgl : d.getLast? = some '\n' := by
            rw [List.getLast?_eq_getElem? d]
            have h1 : d.length - 1 = t := by omega
            rw [h1, hx1]
          rw [paddedLen, if_neg hne, if_pos hgl]
          omega
        · -- a proper suffix remains
          have hlen' : (d.drop (t + 1)).length = d.length - (t + 1) :=
            List.length_drop _ _
          have hne' : d.drop (t + 1) ≠ [] := by
            intro hcon
            rw [hcon] at hlen'
            simp at hlen'
            omega
          have hih := ih (d.drop (t + 1)) (by omega)
          rw [hih]
          have hgl : (d.drop (t + 1)).getLast? = d.getLast? := by
            conv_rhs => rw [← List.take_append_drop (t + 1) d]
            rw [List.getLast?_append_of_ne_nil _ hne']
          rw [paddedLen, paddedLen, if_neg hne, if_neg hne', hgl]
          by_cases hnl : d.getLast? = some '\n'
          · rw [if_pos hnl, if_pos hnl]
            omega
          · rw [if_neg hnl, if_neg hnl]
            omega

theorem sumLens_linesOf (d : List Char) : sumLens (linesOf d) = paddedLen d :=
  sumLens_linesOf_aux d.length d le_rfl

theorem length_le_paddedLen (d : List Char) : d.length ≤ paddedLen d := by
  rw [paddedLen]
  split_ifs with h1 h2
  · simp [h1]
  · exact le_rfl
  · omega

theorem linesOf_get_spec :
    ∀ (n : Nat) (d : List Char), d.length ≤ n →
      ∀ k : Nat, k < (linesOf d).length →
        sumLens ((linesOf d).take k) < d.length ∧
        (linesOf d)[k]? = some (nlLine (d.drop (sumLens ((linesOf d).take k)))) := by
  intro n
  induction n with
  | zero =>
    intro d hd k hk
    have : d = [] := List.eq_nil_of_length_eq_zero (Nat.le_zero.mp hd)
    subst this
    rw [linesOf_eq_nil] at hk
    simp at hk
  | succ n ih =>
    intro d hd k hk
    rcases eq_or_ne d [] with rfl | hne
    · rw [linesOf_eq_nil] at hk
      simp at hk
    · have hdl : 0 < d.length := List.length_pos.mpr hne
      rw [linesOf_ne_nil_eq d hne] at hk ⊢
      match k with
      | 0 =>
        refine ⟨by simpa using hdl, ?_⟩
        simp [sumLens]
      | k' + 1 =>
        have hk' : k' < (linesOf (d.drop (nlLine d).length)).length := by
          simpa using hk
        have hLne : linesOf (d.drop (nlLine d).length) ≠ [] := by
          intro hcon
          rw [hcon] at hk'
          simp at hk'
        have hdne : d.drop (nlLine d).length ≠ [] :=
          fun hcon => hLne (by rw [hcon]; exact linesOf_eq_nil)
        have hlen' : (d.drop (nlLine d).length).length =
            d.length - (nlLine d).length := List.length_drop _ _
        have hpos : 0 < (d.drop (nlLine d).length).length :=
          List.length_pos.mpr hdne
        have hnl1 : 0 < (nlLine d).length := by simp [nlLine]
        have hlt : (nlLine d).length < d.length := by omega
        have hihle : (d.drop (nlLine d).length).length ≤ n := by omega
        obtain ⟨ih1, ih2⟩ := ih (d.drop (nlLine d).length) hihle k' hk'
        constructor
        · rw [List.take_succ_cons, sumLens_cons]
          omega
        · rw [List.take_succ_cons, sumLens_cons, List.getElem?_cons_succ, ih2,
            List.drop_drop]

theorem linesOf_shape :
    ∀ (n : Nat) (d : List Char), d.length ≤ n →
      ∀ l ∈ linesOf d, ∃ c, l = c ++ ['\n'] ∧ '\n' ∉ c := by
  intro n
  induction n with
  | zero =>
    intro d hd l hl
    have : d = [] := List.eq_nil_of_length_eq_zero (Nat.le_zero.mp hd)
    subst this
    rw [linesOf_eq_nil] at hl
    simp at hl
  | succ n ih =>
    intro d hd l hl
    rcases eq_or_ne d [] with rfl | hne
    · rw [linesOf_eq_nil] at hl
      simp at hl
    · rw [linesOf_ne_nil_eq d hne] at hl
      rcases List.mem_cons.mp hl with rfl | hl'
      · refine ⟨d.takeWhile (fun c => c ≠ '\n'), rfl, ?_⟩
        intro hmem
        have := List.mem_takeWhile_imp hmem
        simp at this
      · have hdl : 0 < d.length := List.length_pos.mpr hne
        have hnl1 : 0 < (nlLine d).length := by simp [nlLine]
        have hlen' : (d.drop (nlLine d).length).length =
            d.length - (nlLine d).length := List.length_drop _ _
        exact ih (d.drop (nlLine d).length) (by omega) l hl'

theorem sent_complete (P : List Char) (sent : List (List Char))
    (hp : sent = (linesOf P).take sent.length)
    (hix : P.length ≤ sumLens sent) :
    sent = linesOf P ∧ sumLens sent = paddedLen P := by
  by_cases hk : sent.length < (linesOf P).length
  · exfalso
    have h1 := (linesOf_get_spec P.length P le_rfl sent.length hk).1
    rw [← hp] at h1
    omega
  · push_neg at hk
    have h2 : (linesOf P).take sent.length = linesOf P := List.take_of_length_le hk
    rw [h2] at hp
    exact ⟨hp, by rw [hp, sumLens_linesOf]⟩

theorem sent_step (P : List Char) (sent : List (List Char))
    (hp : sent = (linesOf P).take sent.length)
    (hlt : sumLens sent < P.length) :
    sent ++ [nlLine (P.drop (sumLens sent))] =
      (linesOf P).take (sent ++ [nlLine (P.drop (sumLens sent))]).length := by
  have hk : sent.length < (linesOf P).length := by
    by_contra hcon
    push_neg at hcon
    have h2 : (linesOf P).take sent.length = linesOf P := List.take_of_length_le hcon
    rw [h2] at hp
    have h3 := sumLens_linesOf P
    rw [← hp] at h3
    have h4 := length_le_paddedLen P
    omega
  obtain ⟨h1, h2⟩ := linesOf_get_spec P.length P le_rfl sent.length hk
  rw [← hp] at h2
  have h3 : (linesOf P).take (sent.length + 1) =
      (linesOf P).take sent.length ++ [nlLine (P.drop (sumLens sent))] := by
    rw [List.take_succ, h2]
    simp
  have h4 : (sent ++ [nlLine (P.drop (sumLens sent))]).length = sent.length + 1 := by
    simp
  rw [h4, h3, ← hp]

theorem wpc_ne {s : Sess} {a b : WPC} (heq : s.wpc = a) (hne : a ≠ b) : s.wpc ≠ b := by
  rw [heq]; exact hne

theorem rpc_ne {s : Sess} {a b : RPC} (heq : s.rpc = a) (hne : a ≠ b) : s.rpc ≠ b := by
  rw [heq]; exact hne

theorem inv_wstep (P : List Char) (M : Nat) (now : String) (s : Sess)
    (h : InvS P M s) : InvS P M (wstep now s) := by
  obtain ⟨h1, h2, h3, h4, h5, h6, h7, h8, h9, h10, h11, h12, h13, h14, h15, h16, h17⟩ := h
  unfold wstep
  split
  case _ heq =>
    -- waitReady
    split_ifs with hc
    · exact ⟨h1, h2, h3, h4, h5,
        fun _ => ((Bool.or_eq_true _ _).mp hc).symm,
        fun hcon => WPC.noConfusion hcon,
        h8, h9,
        fun hcon => hcon.elim (fun hx => WPC.noConfusion hx) (fun hx => WPC.noConfusion hx),
        fun hr => Or.inl ((h11 hr).resolve_right (wpc_ne heq (by decide))),
        h12, h13, h14, h15, h16, h17⟩
    · exact ⟨h1, h2, h3, h4, h5, h6, h7, h8, h9, h10, h11, h12, h13, h14, h15, h16, h17⟩
  case _ heq =>
    -- mainLoop: while-test
    split_ifs with hc
    · exact ⟨h1, h2, h3, h4, h5,
        fun _ => Or.inr hc,
        fun hcon => WPC.noConfusion hcon,
        h8, h9,
        fun _ => hc,
        fun hr => Or.inl ((h11 hr).resolve_right (wpc_ne heq (by decide))),
        h12, h13, h14, h15, h16, h17⟩
    · have hnw : s.wpc ≠ .waitReady := wpc_ne heq (by decide)
      have hready : s.ready = true := (h6 hnw).resolve_right hc
      exact ⟨h1, h2, h3, h4, h5,
        fun _ => Or.inl hready,
        fun _ => hready,
        h8, h9,
        fun hcon => hcon.elim (fun hx => WPC.noConfusion hx) (fun hx => WPC.noConfusion hx),
        fun hr => Or.inl ((h11 hr).resolve_right (wpc_ne heq (by decide))),
        h12, h13, h14, h15, h16, h17⟩
  case _ heq =>
    -- wbody: locked loop body
    have hready : s.ready = true := h7 heq
    have hflushed : s.flushed = true := by
      rcases h8 hready with hf | hrd
      · exact hf
      · exact (h11 hrd).resolve_right (wpc_ne heq (by decide))
    split
    case _ hdata =>
      -- data is None: contradicts the session invariant
      rw [h1] at hdata
      exact Option.noConfusion hdata
    case _ d hdata =>
      have hdP : P = d := Option.some.inj (h1.symm.trans hdata)
      subst hdP
      split_ifs with hfin hwin
      · -- cursor past the end: set done
        exact ⟨h1, h2, h3, h4, h5,
          fun _ => Or.inr rfl,
          fun hcon => WPC.noConfusion hcon,
          h8, fun _ => rfl,
          fun _ => rfl,
          fun hr => Or.inl ((h11 hr).resolve_right (wpc_ne heq (by decide))),
          h12, h13, h14, h15,
          fun _ => Or.inr hfin,
          h17⟩
      · -- send one line
        have hlt : sumLens s.sent < P.length := by
          rw [← h15]
          omega
        have hsp := sent_step P s.sent h14 hlt
        rw [← h15] at hsp
        exact ⟨h1, h2,
          by show (0 : Int) ≤ s.outstanding + 1; omega,
          by show s.outstanding + 1 ≤ (M : Int); rw [h2] at hwin; omega,
          fun r hr => by show (1 : Int) ≤ s.outstanding + 1; have := h5 r hr; omega,
          fun _ => Or.inl hready,
          fun hcon => WPC.noConfusion hcon,
          h8, h9,
          fun hcon => hcon.elim (fun hx => WPC.noConfusion hx) (fun hx => WPC.noConfusion hx),
          fun hr => Or.inl ((h11 hr).resolve_right (wpc_ne heq (by decide))),
          h12,
          fun _ => ⟨hready, hflushed⟩,
          hsp,
          by show s.index + (nlLine (P.drop s.index)).length =
               sumLens (s.sent ++ [nlLine (P.drop s.index)])
             rw [sumLens_append, sumLens_cons, sumLens_nil, h15]
             omega,
          fun hw => by
            rcases h16 hw with hst | hix
            · exact Or.inl hst
            · exact absurd hix (by omega),
          fun hr => by
            rcases h17 hr with hst | ⟨hout, htail⟩
            · exact Or.inl hst
            · rcases h16 (h9 hr) with hst | hix
              · exact Or.inl hst
              · exact absurd hix (by omega)⟩
      · -- window full: no write this iteration
        exact ⟨h1, h2, h3, h4, h5,
          fun _ => Or.inl hready,
          fun hcon => WPC.noConfusion hcon,
          h8, h9,
          fun hcon => hcon.elim (fun hx => WPC.noConfusion hx) (fun hx => WPC.noConfusion hx),
          fun hr => Or.inl ((h11 hr).resolve_right (wpc_ne heq (by decide))),
          h12, h13, h14, h15, h16, h17⟩
  case _ heq =>
    -- finishW
    have hdone : s.writerDone = true := h10 (Or.inl heq)
    exact ⟨h1, h2, h3, h4, h5,
      fun _ => Or.inr hdone,
      fun hcon => WPC.noConfusion hcon,
      h8, h9,
      fun _ => hdone,
      fun _ => Or.inr rfl,
      h12, h13, h14, h15, h16, h17⟩
  case _ heq =>
    -- haltedW
    exact ⟨h1, h2, h3, h4, h5, h6, h7, h8, h9, h10, h11, h12, h13, h14, h15, h16, h17⟩

theorem inv_rstep (P : List Char) (M : Nat) (pf : List Char → Bool)
    (now els : String) (s : Sess) (h : InvS P M s) :
    InvS P M (rstep pf now els s) := by
  obtain ⟨h1, h2, h3, h4, h5, h6, h7, h8, h9, h10, h11, h12, h13, h14, h15, h16, h17⟩ := h
  unfold rstep
  split
  case _ heq =>
    -- flushR
    split_ifs with hrd
    · exact ⟨h1, h2, h3, h4,
        fun r hr => RPC.noConfusion hr,
        fun _ => Or.inl rfl,
        fun _ => rfl,
        fun _ => Or.inr hrd,
        h9, h10, h11,
        fun _ => Or.inr hrd,
        fun hs => ⟨rfl, (h13 hs).2⟩,
        h14, h15, h16,
        fun hr => by
          rcases h17 hr with hst | ⟨hout, htail⟩
          · exact Or.inl hst
          · rw [heq] at htail
            exact absurd htail (by decide)⟩
    · exact ⟨h1, h2, h3, h4,
        fun r hr => RPC.noConfusion hr,
        fun _ => Or.inl rfl,
        fun _ => rfl,
        fun _ => Or.inl rfl,
        fun hr => absurd hr hrd,
        h10,
        fun hr => absurd hr hrd,
        fun _ => Or.inl rfl,
        fun _ => ⟨rfl, rfl⟩,
        h14, h15, h16,
        fun hr => absurd hr hrd⟩
  case _ heq =>
    -- mainR: while-test
    split_ifs with hrd
    · exact ⟨h1, h2, h3, h4,
        fun r hr => RPC.noConfusion hr,
        h6, h7, h8, h9, h10, h11,
        fun _ => Or.inr hrd,
        h13, h14, h15, h16,
        fun hr => by
          rcases h17 hr with hst | ⟨hout, _⟩
          · exact Or.inl hst
          · exact Or.inr ⟨hout, rfl⟩⟩
    · exact ⟨h1, h2, h3, h4,
        fun r hr => RPC.noConfusion hr,
        h6, h7, h8,
        fun hr => absurd hr hrd,
        h10,
        fun hr => absurd hr hrd,
        fun _ => h12 (rpc_ne heq (fun hcon => RPC.noConfusion hcon)),
        h13, h14, h15, h16,
        fun hr => absurd hr hrd⟩
  case _ heq =>
    -- rbody: locked read region
    split
    case _ hdata =>
      rw [h1] at hdata
      exact Option.noConfusion hdata
    case _ d hdata =>
      split_ifs with hout hwd
      · -- outstanding nonzero: attempt a read
        split
        case _ hinb =>
          exact ⟨h1, h2, h3, h4,
            fun r hr => RPC.noConfusion hr,
            h6, h7, h8, h9, h10, h11,
            fun _ => h12 (rpc_ne heq (fun hcon => RPC.noConfusion hcon)),
            h13, h14, h15, h16,
            fun hr => by
              rcases h17 hr with hst | ⟨hout0, _⟩
              · exact Or.inl hst
              · exact Or.inr ⟨hout0, rfl⟩⟩
        case _ r rest hinb =>
          split_ifs with hstrip
          · exact ⟨h1, h2, h3, h4,
              fun r' hr' => RPC.noConfusion hr',
              h6, h7, h8, h9, h10, h11,
              fun _ => h12 (rpc_ne heq (fun hcon => RPC.noConfusion hcon)),
              h13, h14, h15, h16,
              fun hr => by
                rcases h17 hr with hst | ⟨hout0, _⟩
                · exact Or.inl hst
                · exact Or.inr ⟨hout0, rfl⟩⟩
          · exact ⟨h1, h2, h3, h4,
              fun r' hr' => by show (1 : Int) ≤ s.outstanding; omega,
              h6, h7, h8, h9, h10, h11,
              fun _ => h12 (rpc_ne heq (fun hcon => RPC.noConfusion hcon)),
              h13, h14, h15, h16,
              fun hr => by
                rcases h17 hr with hst | ⟨hout0, _⟩
                · exact Or.inl hst
                · exact absurd hout0 hout⟩
      · -- nothing outstanding and the writer is done: finish naturally
        have hout0 : s.outstanding = 0 := not_not.mp hout
        exact ⟨h1, h2, h3, h4,
          fun r hr => RPC.noConfusion hr,
          h6, h7,
          fun hrdy => (h8 hrdy).imp id (fun _ => rfl),
          fun _ => hwd,
          h10,
          fun _ => by
            rcases h12 (rpc_ne heq (fun hcon => RPC.noConfusion hcon)) with hf | hrd'
            · exact Or.inl hf
            · exact h11 hrd',
          fun _ => Or.inr rfl,
          fun hs => h13 hs,
          h14, h15, h16,
          fun _ => Or.inr ⟨hout0, rfl⟩⟩
      · -- nothing outstanding, writer still running: idle
        exact ⟨h1, h2, h3, h4,
          fun r hr => RPC.noConfusion hr,
          h6, h7, h8, h9, h10, h11,
          fun _ => h12 (rpc_ne heq (fun hcon => RPC.noConfusion hcon)),
          h13, h14, h15, h16,
          fun hr => by
            rcases h17 hr with hst | ⟨hout0, _⟩
            · exact Or.inl hst
            · exact Or.inr ⟨hout0, rfl⟩⟩
  case _ r heq =>
    -- classifyR: the stripped response is classified
    have hpos : 1 ≤ s.outstanding := h5 r heq
    split
    case _ hcl =>
      -- "ok": release one window credit
      exact ⟨h1, h2,
        by show (0 : Int) ≤ s.outstanding - 1; omega,
        by show s.outstanding - 1 ≤ (M : Int); omega,
        fun r' hr' => RPC.noConfusion hr',
        h6, h7, h8, h9, h10, h11,
        fun _ => h12 (rpc_ne heq (fun hcon => RPC.noConfusion hcon)),
        h13, h14, h15, h16,
        fun hr => by
          rcases h17 hr with hst | ⟨_, htail⟩
          · exact Or.inl hst
          · rw [heq] at htail
            simp [rpcTailB] at htail⟩
    case _ hcl =>
      -- diagnostic line: skip
      exact ⟨h1, h2, h3, h4,
        fun r' hr' => RPC.noConfusion hr',
        h6, h7, h8, h9, h10, h11,
        fun _ => h12 (rpc_ne heq (fun hcon => RPC.noConfusion hcon)),
        h13, h14, h15, h16,
        fun hr => by
          rcases h17 hr with hst | ⟨hout0, _⟩
          · exact Or.inl hst
          · exact Or.inr ⟨hout0, rfl⟩⟩
    case _ hcl =>
      -- device fault: log it and continue
      exact ⟨h1, h2, h3, h4,
        fun r' hr' => RPC.noConfusion hr',
        h6, h7, h8, h9, h10, h11,
        fun _ => h12 (rpc_ne heq (fun hcon => RPC.noConfusion hcon)),
        h13, h14, h15, h16,
        fun hr => by
          rcases h17 hr with hst | ⟨hout0, _⟩
          · exact Or.inl hst
          · exact Or.inr ⟨hout0, rfl⟩⟩
  case _ heq =>
    -- finishR
    exact ⟨h1, h2, h3, h4,
      fun r hr => RPC.noConfusion hr,
      h6, h7, h8, h9, h10, h11,
      fun _ => h12 (rpc_ne heq (fun hcon => RPC.noConfusion hcon)),
      h13, h14, h15, h16,
      fun hr => by
        rcases h17 hr with hst | ⟨hout0, _⟩
        · exact Or.inl hst
        · exact Or.inr ⟨hout0, rfl⟩⟩
  case _ heq =>
    -- haltedR
    exact ⟨h1, h2, h3, h4, h5, h6, h7, h8, h9, h10, h11, h12, h13, h14, h15, h16, h17⟩

theorem inv_sstep (P : List Char) (M : Nat) (pf : List Char → Bool)
    (s : Sess) (l : SLabel) (h : InvS P M s) : InvS P M (sstep pf s l) := by
  obtain ⟨h1, h2, h3, h4, h5, h6, h7, h8, h9, h10, h11, h12, h13, h14, h15, h16, h17⟩ := h
  cases l with
  | wr now =>
    exact inv_wstep P M now s
      ⟨h1, h2, h3, h4, h5, h6, h7, h8, h9, h10, h11, h12, h13, h14, h15, h16, h17⟩
  | rd now els =>
    exact inv_rstep P M pf now els s
      ⟨h1, h2, h3, h4, h5, h6, h7, h8, h9, h10, h11, h12, h13, h14, h15, h16, h17⟩
  | env r =>
    exact ⟨h1, h2, h3, h4, h5, h6, h7, h8, h9, h10, h11, h12, h13, h14, h15, h16, h17⟩
  | stopW =>
    exact ⟨h1, h2, h3, h4, h5,
      fun _ => Or.inr rfl,
      h7, h8,
      fun _ => rfl,
      fun _ => rfl,
      h11, h12, h13, h14, h15,
      fun _ => Or.inl rfl,
      fun _ => Or.inl rfl⟩
  | stopR =>
    show InvS P M (if s.wpc = .haltedW then
      { s with readerDone := true, stopped := true } else s)
    split_ifs with hw
    · exact ⟨h1, h2, h3, h4, h5, h6, h7,
        fun hrdy => (h8 hrdy).imp id (fun _ => rfl),
        fun _ => h10 (Or.inr hw),
        h10,
        fun _ => Or.inr hw,
        fun hne => (h12 hne).imp id (fun _ => rfl),
        h13, h14, h15,
        fun _ => Or.inl rfl,
        fun _ => Or.inl rfl⟩
    · exact ⟨h1, h2, h3, h4, h5, h6, h7, h8, h9, h10, h11, h12, h13, h14, h15, h16, h17⟩

theorem inv_runS (P : List Char) (M : Nat) (pf : List Char → Bool) :
    ∀ (ls : List SLabel) (s : Sess), InvS P M s → InvS P M (runS pf ls s) := by
  intro ls
  induction ls with
  | nil => intro s h; exact h
  | cons l ls ih =>
    intro s h
    exact ih _ (inv_sstep P M pf s l h)

theorem init_inv (P : List Char) (M : Nat) (s : Sess) (h : ValidInit P M s) :
    InvS P M s := by
  obtain ⟨v1, v2, v3, v4, v5, v6, v7, v8, v9, v10, v11, v12⟩ := h
  refine ⟨v1, v2, by rw [v3], by rw [v3]; exact_mod_cast Nat.zero_le M,
    fun r hr => by rw [v11] at hr; exact RPC.noConfusion hr,
    fun hnw => absurd v10 hnw,
    fun hcon => by rw [v10] at hcon; exact WPC.noConfusion hcon,
    fun hrdy => by rw [v5] at hrdy; exact Bool.noConfusion hrdy,
    fun hrd => by rw [v8] at hrd; exact Bool.noConfusion hrd,
    fun hcon => by
      rcases hcon with hx | hx <;> (rw [v10] at hx; exact WPC.noConfusion hx),
    fun hrd => by rw [v8] at hrd; exact Bool.noConfusion hrd,
    fun hne => absurd v11 hne,
    fun hs => absurd v12 hs,
    by rw [v12]; rfl,
    by rw [v4, v12]; rfl,
    fun hwd => by rw [v7] at hwd; exact Bool.noConfusion hwd,
    fun hrd => by rw [v8] at hrd; exact Bool.noConfusion hrd⟩

theorem reach_inv (pf : List Char → Bool) (P : List Char) (M : Nat)
    (s0 s : Sess) (h0 : ValidInit P M s0) (hr : Reach pf s0 s) : InvS P M s := by
  obtain ⟨ls, rfl⟩ := hr
  exact inv_runS P M pf ls s0 (init_inv P M s0 h0)

theorem sstep_data (pf : List Char → Bool) (s : Sess) (l : SLabel) :
    (sstep pf s l).data = s.data := by
  cases l with
  | wr now =>
    show (wstep now s).data = s.data
    unfold wstep
    split
    · split_ifs <;> rfl
    · split_ifs <;> rfl
    · split
      · rfl
      · split_ifs <;> rfl
    · rfl
    · rfl
  | rd now els =>
    show (rstep pf now els s).data = s.data
    unfold rstep
    split
    · split_ifs <;> rfl
    · split_ifs <;> rfl
    · split
      · rfl
      · split_ifs
        · split
          · rfl
          · split_ifs <;> rfl
        · rfl
        · rfl
    · split <;> rfl
    · rfl
    · rfl
  | env r => rfl
  | stopW => rfl
  | stopR =>
    show (if s.wpc = .haltedW then
      { s with readerDone := true, stopped := true } else s).data = s.data
    split_ifs <;> rfl

theorem sstep_index_mono (pf : List Char → Bool) (s : Sess) (l : SLabel) :
    s.index ≤ (sstep pf s l).index := by
  cases l with
  | wr now =>
    show s.index ≤ (wstep now s).index
    unfold wstep
    split
    · split_ifs <;> exact le_refl _
    · split_ifs <;> exact le_refl _
    · split
      · exact le_refl _
      · split_ifs
        · exact le_refl _
        · exact Nat.le_add_right _ _
        · exact le_refl _
    · exact le_refl _
    · exact le_refl _
  | rd now els =>
    show s.index ≤ (rstep pf now els s).index
    unfold rstep
    split
    · split_ifs <;> exact le_refl _
    · split_ifs <;> exact le_refl _
    · split
      · exact le_refl _
      · split_ifs
        · split
          · exact le_refl _
          · split_ifs <;> exact le_refl _
        · exact le_refl _
        · exact le_refl _
    · split <;> exact le_refl _
    · exact le_refl _
    · exact le_refl _
  | env r => exact le_refl _
  | stopW => exact le_refl _
  | stopR =>
    show s.index ≤ (if s.wpc = .haltedW then
      { s with readerDone := true, stopped := true } else s).index
    split_ifs <;> exact le_refl _

theorem send_requires_ready (P : List Char) (M : Nat) (pf : List Char → Bool)
    (s : Sess) (l : SLabel) (h : InvS P M s)
    (hs : (sstep pf s l).sent ≠ s.sent) :
    s.ready = true ∧ s.flushed = true := by
  have hw : s.wpc = .wbody := by
    cases l with
    | wr now =>
      change (wstep now s).sent ≠ s.sent at hs
      unfold wstep at hs
      split at hs
      · split_ifs at hs <;> exact absurd rfl hs
      · split_ifs at hs <;> exact absurd rfl hs
      · next heq => exact heq
      · exact absurd rfl hs
      · exact absurd rfl hs
    | rd now els =>
      change (rstep pf now els s).sent ≠ s.sent at hs
      unfold rstep at hs
      split at hs
      · split_ifs at hs <;> exact absurd rfl hs
      · split_ifs at hs <;> exact absurd rfl hs
      · split at hs
        · exact absurd rfl hs
        · split_ifs at hs
          · split at hs
            · exact absurd rfl hs
            · split_ifs at hs <;> exact absurd rfl hs
          · exact absurd rfl hs
          · exact absurd rfl hs
      · split at hs <;> exact absurd rfl hs
      · exact absurd rfl hs
      · exact absurd rfl hs
    | env r => exact absurd rfl hs
    | stopW => exact absurd rfl hs
    | stopR =>
      change (if s.wpc = .haltedW then
        { s with readerDone := true, stopped := true } else s).sent ≠ s.sent at hs
      split_ifs at hs <;> exact absurd rfl hs
  have hready := h.wbody_ready hw
  refine ⟨hready, ?_⟩
  rcases h.ready_fl hready with hf | hrd
  · exact hf
  · exact (h.rdone_nofl hrd).resolve_right (wpc_ne hw (by decide))

theorem completion_index (pf : List Char → Bool) (P : List Char) (M : Nat)
    (s0 s : Sess) (h0 : ValidInit P M s0) (hr : Reach pf s0 s)
    (hns : s.stopped = false) (hwd : s.writerDone = true) :
    s.index = paddedLen P := by
  have h := reach_inv pf P M s0 s h0 hr
  have hix : P.length ≤ s.index := by
    rcases h.wdone_ix hwd with hst | hix
    · rw [hns] at hst
      exact Bool.noConfusion hst
    · exact hix
  have hcomp := sent_complete P s.sent h.sent_prefix (by rw [← h.index_sum]; exact hix)
  rw [h.index_sum, hcomp.2]

theorem completion_outstanding (pf : List Char → Bool) (P : List Char) (M : Nat)
    (s0 s : Sess) (h0 : ValidInit P M s0) (hr : Reach pf s0 s)
    (hns : s.stopped = false) (hrd : s.readerDone = true) :
    s.outstanding = 0 := by
  have h := reach_inv pf P M s0 s h0 hr
  rcases h.rdone_quiet hrd with hst | ⟨hout, _⟩
  · rw [hns] at hst
    exact Bool.noConfusion hst
  · exact hout

theorem paddedLen_eq_length_iff (d : List Char) (h : d ≠ []) :
    paddedLen d = d.length ↔ d.getLast? = some '\n' := by
  rw [paddedLen, if_neg h]
  split_ifs with hl
  · simp [hl]
  · constructor
    · intro hcon
      omega
    · intro hcon
      exact absurd hcon hl

theorem progress_mono (pf : List Char → Bool) (s : Sess) (l : SLabel) :
    progress s ≤ progress (sstep pf s l) := by
  unfold progress
  rw [sstep_data]
  cases hdata : s.data with
  | none => exact le_refl _
  | some d =>
    show (if d.length = 0 then (0 : ℚ) else (100 * s.index : ℚ) / (d.length : ℚ)) ≤
      (if d.length = 0 then (0 : ℚ) else (100 * (sstep pf s l).index : ℚ) / (d.length : ℚ))
    split_ifs with hlen
    · exact le_refl _
    · have hpos : (0 : ℚ) < (d.length : ℚ) := by
        exact_mod_cast Nat.pos_of_ne_zero hlen
      have hmono := sstep_index_mono pf s l
      gcongr

theorem classify_eq_ack (pf : List Char → Bool) (r : List Char) (h : r = okBytes) :
    classify pf r = .ack := by
  rw [classify, if_pos h]

theorem classify_eq_skip (pf : List Char → Bool) (r : List Char) (h1 : r ≠ okBytes)
    (h2 : mcodeBytes.isPrefixOf r = true ∨ codeBytes.isPrefixOf r = true ∨
      (r.length = 5 ∧ pf r = true)) :
    classify pf r = .skipd := by
  rw [classify, if_neg h1]
  rcases h2 with ha | hb | hc
  · rw [if_pos ha]
  · by_cases hm : mcodeBytes.isPrefixOf r = true
    · rw [if_pos hm]
    · rw [if_neg hm, if_pos hb]
  · by_cases hm : mcodeBytes.isPrefixOf r = true
    · rw [if_pos hm]
    · by_cases hcp : codeBytes.isPrefixOf r = true
      · rw [if_neg hm, if_pos hcp]
      · rw [if_neg hm, if_neg hcp, if_pos hc]

theorem classify_eq_fault (pf : List Char → Bool) (r : List Char) (h1 : r ≠ okBytes)
    (h2 : ¬(mcodeBytes.isPrefixOf r = true ∨ codeBytes.isPrefixOf r = true ∨
      (r.length = 5 ∧ pf r = true))) :
    classify pf r = .fault := by
  push_neg at h2
  obtain ⟨hm, hcp, hlen⟩ := h2
  rw [classify, if_neg h1, if_neg hm, if_neg hcp, if_neg ?_]
  intro hcon
  exact absurd hcon.2 (hlen hcon.1)

/-- C1: at every reachable state of a session, the Outstanding counter
stays between 0 and the configured Window (`max_outstanding`) inclusive:
the writer increments it only under the lock when it is below the
window, and the reader decrements it only after reading a response
issued while it was positive, so no interleaving of writer, reader,
environment, and cancellation steps drives it below 0 or above the
window. -/
theorem C1_outstanding_window_invariant (pf : List Char → Bool) (P : List Char)
    (M : Nat) (s0 s : Sess) (h0 : ValidInit P M s0) (hr : Reach pf s0 s) :
    0 ≤ s.outstanding ∧ s.outstanding ≤ (M : Int) := by
  have h := reach_inv pf P M s0 s h0 hr
  exact ⟨h.out_lb, h.out_ub⟩

/-- Witness for C1 at a concrete reachable state. -/
theorem C1_outstanding_window_invariant_witness :
    0 ≤ cFin.outstanding ∧ cFin.outstanding ≤ ((2 : Nat) : Int) :=
  C1_outstanding_window_invariant pfFalse cP 2 cInit cFin (by decide) ⟨cSched, rfl⟩

/-- C2 counterexample: for the two-byte program `"G1"` (no trailing
newline) a fault-free, stop-free session completes naturally with the
send cursor at 3, not `len(P) = 2`: the writer appends a synthesized
`'\n'` to the final line and advances the cursor by the bytes written. -/
theorem C2_counterexample :
    ValidInit cP 2 cInit ∧ Reach pfFalse cInit cFin ∧
    cFin.stopped = false ∧ cFin.writerDone = true ∧ cFin.readerDone = true ∧
    cFin.errors = [] ∧ cFin.outstanding = 0 ∧
    cFin.index = 3 ∧ cP.length = 2 :=
  ⟨by decide, ⟨cSched, rfl⟩, rfl, rfl, rfl, rfl, rfl, rfl, rfl⟩

/-- C2 (amended): a session that completes naturally (both done flags
set, no `Stop()`) ends with `Outstanding = 0` and the send cursor at
`paddedLen P`, which is `len(P)` when `P` is empty or ends with a
newline and `len(P) + 1` otherwise. -/
theorem C2_natural_completion (pf : List Char → Bool) (P : List Char) (M : Nat)
    (s0 s : Sess) (h0 : ValidInit P M s0) (hr : Reach pf s0 s)
    (hns : s.stopped = false) (hwd : s.writerDone = true)
    (hrd : s.readerDone = true) :
    s.index = paddedLen P ∧ s.outstanding = 0 :=
  ⟨completion_index pf P M s0 s h0 hr hns hwd,
   completion_outstanding pf P M s0 s h0 hr hns hrd⟩

/-- Witness for the amended C2 on the concrete fault-free run. -/
theorem C2_natural_completion_witness :
    cFin.index = paddedLen cP ∧ cFin.outstanding = 0 :=
  C2_natural_completion pfFalse cP 2 cInit cFin (by decide) ⟨cSched, rfl⟩ rfl rfl rfl

/-- C7: the writer transmits exactly the wire lines of the program, in
program order, one line per transport write; the cursor always equals
the total byte count of the lines written; and every transmitted line
is some newline-free content followed by exactly one `'\n'`, regardless
of how the source line ended. -/
theorem C7_lines_in_order (pf : List Char → Bool) (P : List Char) (M : Nat)
    (s0 s : Sess) (h0 : ValidInit P M s0) (hr : Reach pf s0 s) :
    s.sent = (linesOf P).take s.sent.length ∧
    s.index = sumLens s.sent ∧
    ∀ l ∈ s.sent, ∃ c, l = c ++ ['\n'] ∧ '\n' ∉ c := by
  have h := reach_inv pf P M s0 s h0 hr
  refine ⟨h.sent_prefix, h.index_sum, ?_⟩
  intro l hl
  have hmem : l ∈ linesOf P := by
    rw [h.sent_prefix] at hl
    exact List.mem_of_mem_take hl
  exact linesOf_shape P.length P le_rfl l hmem

/-- Witness for C7 at the end of the concrete fault-free run. -/
theorem C7_lines_in_order_witness :
    cFin.sent = (linesOf cP).take cFin.sent.length ∧
    cFin.index = sumLens cFin.sent ∧
    ∀ l ∈ cFin.sent, ∃ c, l = c ++ ['\n'] ∧ '\n' ∉ c :=
  C7_lines_in_order pfFalse cP 2 cInit cFin (by decide) ⟨cSched, rfl⟩

/-- C8: in every execution, a step that makes the writer send bytes on
the transport is possible only in a state where the reader has already
reset the transport's input buffer and set the Ready flag: whenever a
step changes the sent trace, the pre-state has `ready = true` and
`flushed = true`. -/
theorem C8_no_send_before_ready (pf : List Char → Bool) (P : List Char) (M : Nat)
    (s0 s : Sess) (l : SLabel) (h0 : ValidInit P M s0) (hr : Reach pf s0 s)
    (hs : (sstep pf s l).sent ≠ s.sent) :
    s.ready = true ∧ s.flushed = true :=
  send_requires_ready P M pf s l (reach_inv pf P M s0 s h0 hr) hs

/-- Witness for C8: the state just before the first concrete send. -/
theorem C8_no_send_before_ready_witness :
    cMid.ready = true ∧ cMid.flushed = true :=
  C8_no_send_before_ready pfFalse cP 2 cInit cMid (.wr "t") (by decide)
    ⟨cMidSched, rfl⟩ (by decide)

/-- C6 counterexample: on the concrete fault-free run of the program
`"G1"` (no trailing newline), the session completes naturally with
`Progress = 150`, not 100: the cursor overshoots `len(P)` by the
synthesized final newline. -/
theorem C6_counterexample :
    ValidInit cP 2 cInit ∧ Reach pfFalse cInit cFin ∧ cFin.stopped = false ∧
    cFin.writerDone = true ∧ cFin.readerDone = true ∧ cFin.errors = [] ∧
    progress cFin = 150 := by
  refine ⟨by decide, ⟨cSched, rfl⟩, rfl, rfl, rfl, rfl, ?_⟩
  have h1 : cFin.data = some cP := by decide
  have h2 : cFin.index = 3 := by decide
  unfold progress
  rw [h1, h2]
  norm_num [cP]

/-- C6 (amended): Progress is monotonically non-decreasing across every
session step; and at natural completion of a session on a non-empty
program `P`, Progress is at least 100 and equals 100 exactly when `P`
ends with a newline (otherwise it is `100 * (len(P)+1) / len(P)`). -/
theorem C6_progress_monotone_completion :
    (∀ (pf : List Char → Bool) (s : Sess) (l : SLabel),
      progress s ≤ progress (sstep pf s l)) ∧
    (∀ (pf : List Char → Bool) (P : List Char) (M : Nat) (s0 s : Sess),
      ValidInit P M s0 → Reach pf s0 s → s.stopped = false →
      s.writerDone = true → P ≠ [] →
      100 ≤ progress s ∧ (progress s = 100 ↔ P.getLast? = some '\n')) := by
  constructor
  · exact progress_mono
  · intro pf P M s0 s h0 hr hns hwd hP
    have h := reach_inv pf P M s0 s h0 hr
    have hix : s.index = paddedLen P := completion_index pf P M s0 s h0 hr hns hwd
    have hlen : P.length ≠ 0 := fun hc => hP (List.eq_nil_of_length_eq_zero hc)
    have hpos : (0 : ℚ) < (P.length : ℚ) := by
      exact_mod_cast Nat.pos_of_ne_zero hlen
    have hprog : progress s = (100 * (paddedLen P) : ℚ) / (P.length : ℚ) := by
      unfold progress
      rw [h.data_eq]
      show (if P.length = 0 then (0 : ℚ) else (100 * s.index : ℚ) / (P.length : ℚ)) =
        (100 * (paddedLen P) : ℚ) / (P.length : ℚ)
      rw [if_neg hlen, hix]
    have hple := length_le_paddedLen P
    constructor
    · rw [hprog, le_div_iff₀ hpos]
      have : (P.length : ℚ) ≤ (paddedLen P : ℚ) := by exact_mod_cast hple
      nlinarith
    · rw [hprog, div_eq_iff (ne_of_gt hpos)]
      rw [← paddedLen_eq_length_iff P hP]
      constructor
      · intro hc
        have : (paddedLen P : ℚ) = (P.length : ℚ) := by linarith
        exact_mod_cast this
      · intro hc
        rw [hc]

/-- Witness for the amended C6 at concrete inputs. -/
theorem C6_progress_monotone_completion_witness :
    (progress cInit ≤ progress (sstep pfFalse cInit (SLabel.wr "t"))) ∧
    (100 ≤ progress cFin ∧ (progress cFin = 100 ↔ cP.getLast? = some '\n')) :=
  ⟨C6_progress_monotone_completion.1 pfFalse cInit (SLabel.wr "t"),
   C6_progress_monotone_completion.2 pfFalse cP 2 cInit cFin (by decide)
     ⟨cSched, rfl⟩ rfl rfl (by decide)⟩

/-- C5: the reader's classification of a stripped non-empty response
line: exactly `b"ok"` decrements Outstanding by exactly one; a line
with a known diagnostic shape (`Processing Mcode` prefix, `code`
prefix, or 5 bytes accepted by `float()`) is ignored with no state
change; any other line is appended, as one identical device-fault
entry, to both the error log and the message log, Outstanding is not
decremented, and the reader returns to its polling loop. -/
theorem C5_response_classification (pf : List Char → Bool) (now els : String)
    (s : Sess) (r : List Char) (hr : s.rpc = .classifyR r) :
    (r = okBytes →
      rstep pf now els s =
        { s with outstanding := s.outstanding - 1, rpc := .mainR }) ∧
    (r ≠ okBytes →
      (mcodeBytes.isPrefixOf r = true ∨ codeBytes.isPrefixOf r = true ∨
        (r.length = 5 ∧ pf r = true)) →
      rstep pf now els s = { s with rpc := .mainR }) ∧
    (r ≠ okBytes →
      ¬(mcodeBytes.isPrefixOf r = true ∨ codeBytes.isPrefixOf r = true ∨
        (r.length = 5 ∧ pf r = true)) →
      rstep pf now els s =
        { s with
            errors := s.errors ++ [fmtEntry now ("Laser error: " ++ pyBytesRepr r)],
            messages := s.messages ++ [fmtEntry now ("Laser error: " ++ pyBytesRepr r)],
            rpc := .mainR }) := by
  obtain ⟨dt, mo, out, ix, rd, fl, wd, rdn, st, wpc, rpc, snt, inb, ers, msg⟩ := s
  simp only at hr
  subst hr
  refine ⟨?_, ?_, ?_⟩
  · intro hok
    unfold rstep
    dsimp only
    rw [classify_eq_ack pf r hok]
  · intro hnok hskip
    unfold rstep
    dsimp only
    rw [classify_eq_skip pf r hnok hskip]
  · intro hnok hsk
    unfold rstep
    dsimp only
    rw [classify_eq_fault pf r hnok hsk]

/-- Witness for C5: acknowledging a concrete `b"ok"` response. -/
theorem C5_response_classification_witness :
    rstep pfFalse "t" "e" c5State =
      { c5State with outstanding := c5State.outstanding - 1, rpc := .mainR } :=
  (C5_response_classification pfFalse "t" "e" c5State okBytes rfl).1 rfl

/-- C10: when the byte at the cursor is a newline (an empty program
line), the writer's locked loop body transmits a standalone `"\n"` as
its own transport write, advances the cursor by exactly 1, and
increments Outstanding by 1, so the empty line consumes one unit of
window credit (and therefore needs its own `"ok"` to release it). -/
theorem C10_empty_line_send (now : String) (s : Sess) (d : List Char)
    (hw : s.wpc = .wbody) (hd : s.data = some d)
    (hhead : (d.drop s.index).head? = some '\n')
    (hout : s.outstanding < (s.maxOut : Int)) :
    wstep now s =
      { s with sent := s.sent ++ [['\n']], index := s.index + 1,
               outstanding := s.outstanding + 1, wpc := .mainLoop } := by
  have hcons : ∃ t, d.drop s.index = '\n' :: t := by
    cases hdrop : d.drop s.index with
    | nil => rw [hdrop] at hhead; exact Option.noConfusion hhead
    | cons a t =>
      rw [hdrop] at hhead
      exact ⟨t, by rw [List.head?_cons] at hhead; rw [Option.some.injEq] at hhead; rw [hhead]⟩
  obtain ⟨t, hcons⟩ := hcons
  have hlt : s.index < d.length := by
    have := List.length_drop s.index d
    rw [hcons] at this
    simp at this
    omega
  have hline : nlLine (d.drop s.index) = ['\n'] := by
    rw [hcons]
    simp [nlLine]
  obtain ⟨dt, mo, out, ix, rd, fl, wd, rdn, st, wpc, rpc, snt, inb, ers, msg⟩ := s
  simp only at hw hd hline hout hlt ⊢
  subst hw
  subst hd
  unfold wstep
  dsimp only
  rw [if_neg (by omega), if_pos hout, hline]
  simp

/-- Witness for C10 on a concrete state with a leading empty line. -/
theorem C10_empty_line_send_witness :
    wstep "t" c10State =
      { c10State with sent := c10State.sent ++ [['\n']],
                      index := c10State.index + 1,
                      outstanding := c10State.outstanding + 1,
                      wpc := .mainLoop } :=
  C10_empty_line_send "t" c10State ['\n', 'G'] rfl rfl (by decide) (by decide)

/-- C3 counterexample: when the error log is non-empty, `write()`
returns immediately without appending any `SessionConflict` error (the
`if self.errors: return` guard fires before the conflict check), so the
claim that it "appends exactly one SessionConflict error" fails. -/
theorem C3_counterexample :
    cxErrDriver.errors ≠ [] ∧
    ogcSerialDriver.write "t1" ['G'] cxErrDriver = cxErrDriver ∧
    (ogcSerialDriver.write "t1" ['G'] cxErrDriver).errors.length ≠
      cxErrDriver.errors.length + 1 := by
  refine ⟨by decide, ?_, by decide⟩
  rfl

/-- C3 (amended): with a non-empty error log, `write()` returns with no
side effects at all and appends no error; with an empty error log and
an active session, it first records the start time and a "Writing ..."
message, then appends exactly one "I/O already in progress." entry to
both logs, and leaves the cursor, Outstanding, the installed program,
and the worker threads unchanged. -/
theorem C3_write_rejection (now : String) (p : List Char) (d : Driver) :
    (d.errors ≠ [] → ogcSerialDriver.write now p d = d) ∧
    (d.errors = [] → ogcSerialDriver.sessionActive d = true →
      ogcSerialDriver.write now p d =
        { d with
            writeStartSet := true,
            messages := d.messages ++
              [fmtEntry now (ogcSerialDriver.writingMsg p),
               fmtEntry now "I/O already in progress."],
            errors := [fmtEntry now "I/O already in progress."] }) := by
  constructor
  · intro he
    unfold ogcSerialDriver.write
    rw [if_pos he]
  · intro he ha
    unfold ogcSerialDriver.write
    rw [if_neg (by simp [he])]
    have ha' : ogcSerialDriver.sessionActive
        (ogcSerialDriver.message now (ogcSerialDriver.writingMsg p)
          { d with writeStartSet := true }) = true := ha
    rw [if_pos ha']
    unfold ogcSerialDriver.error ogcSerialDriver.message
    simp [he]

/-- Witness for the amended C3 at concrete driver states. -/
theorem C3_write_rejection_witness :
    (ogcSerialDriver.write "t" ['G'] cxErrDriver = cxErrDriver) ∧
    (ogcSerialDriver.write "t" ['G'] cxActiveDriver =
      { cxActiveDriver with
          writeStartSet := true,
          messages := cxActiveDriver.messages ++
            [fmtEntry "t" (ogcSerialDriver.writingMsg ['G']),
             fmtEntry "t" "I/O already in progress."],
          errors := [fmtEntry "t" "I/O already in progress."] }) :=
  ⟨(C3_write_rejection "t" ['G'] cxErrDriver).1 (by decide),
   (C3_write_rejection "t" ['G'] cxActiveDriver).2 rfl (by decide)⟩

/-- C4 counterexample: with the port open and no session active, a
second `stop()` writes the safety sequence to the transport again — the
code re-issues it on every call while `serial.is_open` — so repeated
`stop()` is not idempotent with respect to transport writes. -/
theorem C4_counterexample :
    cxOpenDriver.writer = none ∧ cxOpenDriver.reader = none ∧
    (ogcSerialDriver.stop "t1" cxOpenDriver).portWrites.length = 1 ∧
    (ogcSerialDriver.stop "t2" (ogcSerialDriver.stop "t1" cxOpenDriver)).portWrites.length
      = 2 :=
  ⟨rfl, rfl, by decide, by decide⟩

/-- C4 (amended): with no session active, `stop()` never raises and
appends the safety sequence to the transport exactly when the port is
open — hence each further `stop()` while the port remains open writes
it again; `close()` closes the port, and a repeated `close()` issues no
additional transport writes, so `close()` is idempotent in that sense
and both calls are safe when no session was ever started. -/
theorem C4_stop_close_idempotence (t1 t2 : String) (d : Driver)
    (hw : d.writer = none) (hrd : d.reader = none) :
    ((ogcSerialDriver.stop t1 d).portWrites =
      d.portWrites ++ (if d.serialIsOpen then [ogcSerialDriver.safetySeq] else [])) ∧
    ((ogcSerialDriver.close t1 d).serialIsOpen = false) ∧
    ((ogcSerialDriver.close t2 (ogcSerialDriver.close t1 d)).portWrites =
      (ogcSerialDriver.close t1 d).portWrites) := by
  have hclosed : (ogcSerialDriver.close t1 d).serialIsOpen = false := by
    unfold ogcSerialDriver.close ogcSerialDriver.stop ogcSerialDriver.message
    dsimp only
    split_ifs with ho
    · rfl
    · exact Bool.eq_false_iff.mpr ho
  refine ⟨?_, hclosed, ?_⟩
  · unfold ogcSerialDriver.stop ogcSerialDriver.message
    dsimp only
    split_ifs with ho
    · rfl
    · simp
  · set d1 := ogcSerialDriver.close t1 d with hd1
    unfold ogcSerialDriver.close ogcSerialDriver.stop ogcSerialDriver.message
    dsimp only
    split_ifs with h1
    · exact absurd h1 (by rw [hclosed]; exact Bool.false_ne_true)
    · rfl

/-- Witness for the amended C4 at a concrete quiescent driver. -/
theorem C4_stop_close_idempotence_witness :
    ((ogcSerialDriver.stop "t1" cxOpenDriver).portWrites =
      cxOpenDriver.portWrites ++
        (if cxOpenDriver.serialIsOpen then [ogcSerialDriver.safetySeq] else [])) ∧
    ((ogcSerialDriver.close "t1" cxOpenDriver).serialIsOpen = false) ∧
    ((ogcSerialDriver.close "t2" (ogcSerialDriver.close "t1" cxOpenDriver)).portWrites =
      (ogcSerialDriver.close "t1" cxOpenDriver).portWrites) :=
  C4_stop_close_idempotence "t1" "t2" cxOpenDriver rfl rfl

/-- C9: `error(e)` appends one identical timestamped entry to both the
error log and the message log and changes nothing else;
`clear_errors()` empties only the error log, leaving the message log
(and all other fields) unchanged, so an error entry remains visible
among the messages after the errors are cleared. -/
theorem C9_error_logs_and_clear (now e : String) (d : Driver) :
    (ogcSerialDriver.error now e d).errors = d.errors ++ [fmtEntry now e] ∧
    (ogcSerialDriver.error now e d).messages = d.messages ++ [fmtEntry now e] ∧
    (ogcSerialDriver.error now e d).data = d.data ∧
    (ogcSerialDriver.error now e d).writer = d.writer ∧
    (ogcSerialDriver.error now e d).reader = d.reader ∧
    (ogcSerialDriver.error now e d).outstanding = d.outstanding ∧
    (ogcSerialDriver.error now e d).serialIsOpen = d.serialIsOpen ∧
    (ogcSerialDriver.error now e d).portWrites = d.portWrites ∧
    (ogcSerialDriver.clear_errors d).errors = [] ∧
    (ogcSerialDriver.clear_errors d).messages = d.messages ∧
    (ogcSerialDriver.clear_errors d).data = d.data ∧
    (ogcSerialDriver.clear_errors d).writer = d.writer ∧
    (ogcSerialDriver.clear_errors d).reader = d.reader ∧
    (ogcSerialDriver.clear_errors d).outstanding = d.outstanding ∧
    (ogcSerialDriver.clear_errors d).serialIsOpen = d.serialIsOpen ∧
    (ogcSerialDriver.clear_errors d).portWrites = d.portWrites ∧
    fmtEntry now e ∈
      (ogcSerialDriver.clear_errors (ogcSerialDriver.error now e d)).messages := by
  refine ⟨rfl, rfl, rfl, rfl, rfl, rfl, rfl, rfl, rfl, rfl, rfl, rfl, rfl, rfl, rfl, rfl, ?_⟩
  show fmtEntry now e ∈ d.messages ++ [fmtEntry now e]
  simp
